import Mathlib

/-!
Verification of the quantized DHT arc algebra (`crates/kitsune_p2p/dht/src/arq.rs`)
and the sharded-gossip initiate/bloom-batch logic
(`crates/kitsune_p2p/kitsune_p2p/src/gossip/sharded_gossip/initiate.rs`).

All machine integers are modelled as `Nat` with explicit `% 2^32` (resp. `% 2^64`)
wherever the Rust release build would wrap, and explicit `min` wherever the Rust
code saturates or clamps.  The Rust release build is the reference semantics:
debug assertions are ignored, and arithmetic overflow of the built-in operators
wraps.  `SpaceOffset` and `Loc` are newtypes over `u32`; their arithmetic
operator impls live in `spacetime.rs`, which is not part of the source sample.
Modelled from the spec: "represent ring positions as a wrapping unsigned 32-bit
value type with explicit wrapping add/subtract/multiply operations"; so
multiplication on `SpaceOffset` is taken modulo `2^32`.
-/

/-- Maximum number of values that a u32 can represent (`U32_LEN = u32::MAX + 1`). -/
def U32_LEN : Nat := 2 ^ 32

/-- Convenience method for taking the power of 2 in u32 (`pow2` in `arq.rs`):
`2u32.pow((p as u32).min(31))`.  The exponent clamp keeps the result within u32. -/
def pow2 (p : Nat) : Nat := 2 ^ (min p 31)

/-- A topology: quantum bucket width and its log2 (`Topology` / `SpaceDimension`). -/
structure Topology where
  quantum : Nat
  quantum_power : Nat
deriving DecidableEq, Repr

/-- An absolute DHT location (`Loc`), a u32 newtype. -/
structure Loc where
  val : Nat
deriving DecidableEq, Repr

/-- A quantized space offset (`SpaceOffset`), a u32 newtype. -/
structure SpaceOffset where
  val : Nat
deriving DecidableEq, Repr

/-- The `ArqStart` trait: the two start representations of an arq with their
requantization behaviour (`impl ArqStart for Loc` / `for SpaceOffset`). -/
class ArqStart (S : Type) where
  requantize_up : S → Nat → Option S
  requantize_down : S → Nat → S

/-- `impl ArqStart for Loc`: requantizing never touches the absolute location. -/
instance : ArqStart Loc where
  requantize_up s _ := some s
  requantize_down s _ := s

/-- `impl ArqStart for SpaceOffset`:
`requantize_up`: `((**self) % factor == 0).then(|| *self / factor)`;
`requantize_down`: `*self * factor` where `Mul` on `SpaceOffset` is wrapping
(modelled from the spec, see the header comment). -/
instance : ArqStart SpaceOffset where
  requantize_up s factor := if s.val % factor = 0 then some ⟨s.val / factor⟩ else none
  requantize_down s factor := ⟨(s.val * factor) % U32_LEN⟩

/-- A quantized DHT arc (`Arq<S>`): a start, a power (u8) and a chunk count (u32,
stored in a `SpaceOffset`). -/
structure Arq (S : Type) where
  start : S
  power : Nat
  count : Nat
deriving DecidableEq, Repr

/-- `ArqBounds = Arq<SpaceOffset>`. -/
abbrev ArqBounds := Arq SpaceOffset

/-- `ArqLocated = Arq<Loc>`. -/
abbrev ArqLocated := Arq Loc

/-- `Arq::requantize(new_power)`: requantize to a different power.  Going to a
higher power divides the count and fails (`None`) unless exact; going to a lower
(or equal) power multiplies the count.  `2u32.pow(d)` wraps in release for
`d >= 32`, hence the `% U32_LEN` on the factor; the count multiplication on the
down-path is `SpaceOffset * u32`, which wraps (see header). -/
def Arq.requantize [ArqStart S] (a : Arq S) (new_power : Nat) : Option (Arq S) :=
  if a.power < new_power then
    let factor := 2 ^ (new_power - a.power) % U32_LEN
    match ArqStart.requantize_up a.start factor with
    | some start =>
        let new_count := a.count / factor
        if a.count = new_count * factor then some ⟨start, new_power, new_count⟩ else none
    | none => none
  else
    let factor := 2 ^ (a.power - new_power) % U32_LEN
    some ⟨ArqStart.requantize_down a.start factor, new_power, (a.count * factor) % U32_LEN⟩

/-- `Arq::absolute_chunk_width(dim)`:
`pow2(power).saturating_mul(quantum).min(u32::MAX / 2)`.
`saturating_mul` is `min (x*y) u32::MAX`; `u32::MAX / 2 = 2^31 - 1`. -/
def absolute_chunk_width (topo : Topology) (power : Nat) : Nat :=
  min (min (pow2 power * topo.quantum) (U32_LEN - 1)) ((U32_LEN - 1) / 2)

/-- `Arq::absolute_length(dim)`: `(chunk_width as u64 * count as u64).min(U32_LEN)`.
The u64 product cannot overflow, so it is the exact product capped at `2^32`. -/
def absolute_length (topo : Topology) (power count : Nat) : Nat :=
  min (absolute_chunk_width topo power * count) U32_LEN

/-- `is_full(dim, power, count)` from `arq.rs`: power 0 is never full, power ≥ 32
is always full, otherwise full iff `count >= pow2(max.saturating_sub(power))`
with `max = 32u8.saturating_sub(quantum_power)` (`Nat` subtraction saturates). -/
def is_full (topo : Topology) (power count : Nat) : Bool :=
  let mx := 32 - topo.quantum_power
  if power = 0 then false
  else if 32 ≤ power then true
  else decide (pow2 (mx - power) ≤ count)

/-- `ArqBounds::equivalent(dim, a, b)`: both counts zero, or starts and counts
scaled by the respective chunk widths agree; the scalings are `wrapping_mul`,
i.e. taken modulo `2^32`. -/
def ArqBounds.equivalent (topo : Topology) (a b : ArqBounds) : Bool :=
  (a.count == 0 && b.count == 0)
    || ((a.start.val * absolute_chunk_width topo a.power) % U32_LEN
          == (b.start.val * absolute_chunk_width topo b.power) % U32_LEN
        && (a.count * absolute_chunk_width topo a.power) % U32_LEN
          == (b.count * absolute_chunk_width topo b.power) % U32_LEN)

/-- What the claim means by "a and b denote the same absolute interval": both
empty, or equal starts scaled by the chunk widths (exact products) and equal
absolute lengths (`absolute_length`, capped at `2^32`). -/
def denotes_same_interval (topo : Topology) (a b : ArqBounds) : Prop :=
  (a.count = 0 ∧ b.count = 0)
    ∨ (a.start.val * absolute_chunk_width topo a.power
         = b.start.val * absolute_chunk_width topo b.power
       ∧ absolute_length topo a.power a.count = absolute_length topo b.power b.count)

instance (topo : Topology) (a b : ArqBounds) : Decidable (denotes_same_interval topo a b) := by
  unfold denotes_same_interval; infer_instance

/-- Just the size of a quantized arc, without a start location (`ArqSize`). -/
structure ArqSize where
  power : Nat
  count : Nat
deriving DecidableEq, Repr

/-- Trailing zero count of a u64 value (`u64::trailing_zeros`): 64 for zero,
otherwise the number of factors of two.  Implemented with structural fuel
(64 suffices for any value below `2^64`). -/
def ctzFuel : Nat → Nat → Nat
  | 0, _ => 0
  | fuel + 1, n => if n % 2 = 0 then ctzFuel fuel (n / 2) + 1 else 0

/-- `u64::trailing_zeros`. -/
def trailing_zeros_u64 (n : Nat) : Nat :=
  if n = 0 then 64 else ctzFuel 64 n

/-- The `while (count as u32) < min_chunks { count *= 2; power -= 1 }` loop of
`power_and_count_from_length_exact`, in Rust release semantics: `count` is a
u64 (doubling wraps at `2^64`), the comparison truncates `count` to u32, and
`power` is a u8 (decrementing wraps at 0).  The loop need not terminate (see
`pacfle_loop_diverges`); fuel exhaustion models that non-termination (in a
debug build the `power -= 1` underflow panics instead) and yields `none`. -/
def pacfle_loop : Nat → Nat → Nat → Nat → Option (Nat × Nat)
  | 0, _, _, _ => none
  | fuel + 1, min_chunks, count, power =>
    if count % U32_LEN < min_chunks then
      pacfle_loop fuel min_chunks (count * 2 % 2 ^ 64) ((power + 255) % 256)
    else
      some (power, count % U32_LEN)

/-- `power_and_count_from_length_exact(dim, len, min_chunks)`: highest power and
lowest count representing `len` exactly; `None` if `len` is not a multiple of
the quantum.  (`assert!(len <= U32_LEN)` restricts the intended domain; the
theorems below carry that bound as a hypothesis.)  The normalization loop is
`pacfle_loop` with fuel 64, which is ample for every terminating run. -/
def power_and_count_from_length_exact (topo : Topology) (len min_chunks : Nat) :
    Option ArqSize :=
  let z := trailing_zeros_u64 len
  if z < topo.quantum_power then none
  else
    (pacfle_loop 64 min_chunks (len >>> z) (z - topo.quantum_power)).map
      fun pc => ⟨pc.1, pc.2⟩

/-! ## Sharded gossip: wire messages, round state, initiate handling -/

/-- `EncodedTimedBloomFilter`: the three bloom variants.  Bloom filter bytes and
time windows are modelled as opaque `Nat` identifiers. -/
inductive EncodedTimedBloomFilter where
  | NoOverlap
  | HaveHashes (filter : Nat) (time_window : Nat)
  | MissingAllHashes (time_window : Nat)
deriving DecidableEq, Repr

/-- `ShardedGossipWire` message payloads relevant to the claims. -/
inductive Wire where
  | initiate (arqs : List ArqBounds) (id : Nat) (agents : List Nat)
  | accept (arqs : List ArqBounds) (agents : List Nat)
  | agents (bloom : Nat)
  | opBloom (filter : EncodedTimedBloomFilter) (finished : Bool)
  | opRegions (region_set : Nat)
  | alreadyInProgress
  | noAgents
deriving DecidableEq, Repr

/-- The fields of `RoundState` that `next_bloom_batch` reads and writes. -/
structure RoundState where
  bloom_batch_cursor : Option Nat
  expected_op_bloom_count : Nat
deriving DecidableEq, Repr

/-- `RoundState::increment_expected_op_blooms`.  Modelled from the spec: the
method lives in `state.rs` (not part of the source sample); "each emitted bloom
increments the round's expected-response counter". -/
def increment_expected_op_blooms (s : RoundState) : RoundState :=
  { s with expected_op_bloom_count := s.expected_op_bloom_count + 1 }

/-- One `TimedBloom` returned by the op-hash query: a time window and an
optional bloom filter (`None` = no hashes held locally for that window). -/
structure TimedBloom where
  time : Nat
  bloom : Option Nat
deriving DecidableEq, Repr

/-- `bloom::Batch`: the op-hash query's reply, either the whole window
(`Complete`) or a size-limited slice with a continuation cursor (`Partial`,
named `cursored` here). -/
inductive Batch where
  | complete (data : List TimedBloom)
  | cursored (cursor : Nat) (data : List TimedBloom)
deriving DecidableEq, Repr

/-- The `for (i, bloom) in blooms.into_iter().enumerate()` loop of
`next_bloom_batch`: encode each bloom, increment the expected-bloom counter,
and flag the message final iff it is the last one (`i == len - 1`) and no
continuation cursor is saved on the state. -/
def emit_loop (len : Nat) : Nat → List TimedBloom → RoundState → RoundState × List Wire
  | _, [], st => (st, [])
  | i, b :: rest, st =>
    let encoded := match b.bloom with
      | some f => EncodedTimedBloomFilter.HaveHashes f b.time
      | none => EncodedTimedBloomFilter.MissingAllHashes b.time
    let st := increment_expected_op_blooms st
    let fin := (i == len - 1) && st.bloom_batch_cursor.isNone
    let next := emit_loop len (i + 1) rest st
    (next.1, Wire.opBloom encoded fin :: next.2)

/-- `next_bloom_batch(state, gossip)`: the pure part of the batch generator.
The op-hash query is an external collaborator; its reply is passed in as
`result`.  The saved cursor is taken from the state (its value only feeds the
query's window start), a fresh cursor is saved when the reply is partial, a
`NoOverlap` bloom is pushed when the reply holds no blooms at all, then each
bloom is emitted by `emit_loop`.  Returns the updated state and the messages
pushed onto `gossip`. -/
def next_bloom_batch (state : RoundState) (result : Batch) : RoundState × List Wire :=
  let state := { state with bloom_batch_cursor := none }
  let withBlooms := match result with
    | Batch.complete data => (state, data)
    | Batch.cursored cursor data => ({ state with bloom_batch_cursor := some cursor }, data)
  let state := withBlooms.1
  let blooms := withBlooms.2
  let pre : List Wire :=
    if blooms.isEmpty then [Wire.opBloom EncodedTimedBloomFilter.NoOverlap true] else []
  let out := emit_loop blooms.length 0 blooms state
  (out.1, pre ++ out.2)

/-- Number of `OpBloom` messages in a message list. -/
def countOpBlooms : List Wire → Nat
  | [] => 0
  | Wire.opBloom _ _ :: rest => countOpBlooms rest + 1
  | _ :: rest => countOpBlooms rest

/-- Number of `OpBloom` messages carrying `HaveHashes` or `MissingAllHashes`
(i.e. everything except `NoOverlap`). -/
def countCountedOpBlooms : List Wire → Nat
  | [] => 0
  | Wire.opBloom EncodedTimedBloomFilter.NoOverlap _ :: rest => countCountedOpBlooms rest
  | Wire.opBloom _ _ :: rest => countCountedOpBlooms rest + 1
  | _ :: rest => countCountedOpBlooms rest

/-- The `is_final` flags of the `OpBloom` messages in a message list, in order. -/
def finalFlags : List Wire → List Bool
  | [] => []
  | Wire.opBloom _ fin :: rest => fin :: finalFlags rest
  | _ :: rest => finalFlags rest

/-- `ShardedGossipTarget`: the peer we are currently trying to initiate with. -/
structure ShardedGossipTarget where
  cert : Nat
  tie_break : Nat
  when_initiated : Option Nat
  remote_agent_list : List Nat
deriving DecidableEq, Repr

/-- The fields of the gossip instance's shared inner state that
`incoming_initiate` reads and writes: the round map (modelled by the list of
peer certificates that have an active round), the current outgoing initiate
target, and the local agent list. -/
structure GossipInner where
  round_map : List Nat
  initiate_tgt : Option ShardedGossipTarget
  local_agents : List Nat
deriving DecidableEq, Repr

/-- The final `share_mut` block of `incoming_initiate` on the accept path:
insert the new round into the round map keyed by the peer certificate, and if
the peer is our own initiate target, clear its `when_initiated` timeout and
refresh its remote agent list.  (The metrics sink is an external collaborator
and is not modelled.) -/
def finish_accept (i : GossipInner) (peer_cert : Nat) (remote_agent_list : List Nat) :
    GossipInner :=
  { i with
    round_map := peer_cert :: i.round_map,
    initiate_tgt := i.initiate_tgt.map fun tgt =>
      if tgt.cert == peer_cert then
        { tgt with when_initiated := none, remote_agent_list := remote_agent_list }
      else tgt }

/-- `incoming_initiate(peer_cert, remote_arqs, remote_id, remote_agent_list)`.
External collaborator outputs are passed in: `local_arqs` and `agent_list` come
from the agent-info session, and `gen_msgs` are the messages pushed by
`generate_blooms_or_regions` (the round state it returns is summarized by its
insertion into the round map).  Returns the updated inner state and the reply
messages.  Control flow mirrors the source exactly: (1) an existing round for
the certificate replies `AlreadyInProgress`; (2) an incoming initiate from our
own target compares tie-break ids — `our_id >= remote_id` yields with no
messages, otherwise the outgoing target is dropped; (3) an empty local agent
list replies `NoAgents`; (4) otherwise reply `Accept` followed by the generated
bloom/region messages and register the round. -/
def incoming_initiate (i : GossipInner) (peer_cert : Nat) (remote_id : Nat)
    (remote_agent_list : List Nat) (local_arqs : List ArqBounds) (agent_list : List Nat)
    (gen_msgs : List Wire) : GossipInner × List Wire :=
  let already_in_progress := i.round_map.contains peer_cert
  let same_as_target : Option Nat := match i.initiate_tgt with
    | some tgt => if tgt.cert == peer_cert then some tgt.tie_break else none
    | none => none
  if already_in_progress then
    (i, [Wire.alreadyInProgress])
  else
    let step := match same_as_target with
      | some our_id =>
        if remote_id ≤ our_id then (i, true)
        else ({ i with initiate_tgt := none }, false)
      | none => (i, false)
    let i := step.1
    if step.2 then (i, [])
    else if i.local_agents.isEmpty then (i, [Wire.noAgents])
    else
      (finish_accept i peer_cert remote_agent_list,
        Wire.accept local_arqs agent_list :: gen_msgs)

/-- The expected `is_final` flags per batch, per the source's behaviour: an
empty reply always yields a single final `NoOverlap` bloom; a `Complete` reply
flags exactly the last bloom final; a cursored (`Partial`) reply flags no loop
bloom final (more batches are coming). -/
def batch_final_flags : Batch → List Bool
  | Batch.complete [] => [true]
  | Batch.complete l => (List.range l.length).map fun j => j == l.length - 1
  | Batch.cursored _ [] => [true]
  | Batch.cursored _ l => l.map fun _ => false

/-- The tie-break yield case of `incoming_initiate` does not apply: either
there is no outgoing target, or it is for another peer, or our tie-break id is
strictly below the remote's (so we drop our target and proceed). -/
def tie_break_yield_excluded (i : GossipInner) (peer_cert remote_id : Nat) : Prop :=
  match i.initiate_tgt with
  | some tgt => tgt.cert = peer_cert → tgt.tie_break < remote_id
  | none => True

instance (i : GossipInner) (p r : Nat) : Decidable (tie_break_yield_excluded i p r) := by
  unfold tie_break_yield_excluded
  cases i.initiate_tgt <;> infer_instance

/-! ## Claim theorems -/

/-- C3 (amended): for every topology and every power `p` with `1 ≤ p < 32`,
`is_full` is false at `threshold - 1` and true at `threshold`, where
`threshold = 2^(32 - quantum_power - p)` (truncated subtraction, matching the
source's saturating subtraction).  At `p = 0` the claim as stated fails:
`is_full` is false for every count by construction (see `c3_counterexample`). -/
theorem c3_is_full_threshold (topo : Topology) (p c : Nat) (h1 : 1 ≤ p) (h2 : p < 32) :
    is_full topo p (2 ^ (32 - topo.quantum_power - p) - 1) = false ∧
    is_full topo p (2 ^ (32 - topo.quantum_power - p)) = true ∧
    is_full topo 0 c = false := by
  have hp0 : p ≠ 0 := by omega
  have h32 : ¬ 32 ≤ p := by omega
  have he : min (32 - topo.quantum_power - p) 31 = 32 - topo.quantum_power - p := by omega
  have hpos : 0 < 2 ^ (32 - topo.quantum_power - p) := Nat.pos_pow_of_pos _ (by norm_num)
  refine ⟨?_, ?_, ?_⟩
  · simp only [is_full, if_neg hp0, if_neg h32, pow2, he, decide_eq_false_iff_not]
    omega
  · simp only [is_full, if_neg hp0, if_neg h32, pow2, he, decide_eq_true_eq]
    omega
  · simp [is_full]

/-- C3 counterexample: with the standard quantum power 12 and `p = 0`, the
claim's threshold is `2^(32 - 12 - 0) = 2^20`, yet `is_full` is false there
(power 0 is never full by construction). -/
theorem c3_counterexample :
    ¬ (is_full ⟨4096, 12⟩ 0 (2 ^ (32 - 12 - 0)) = true) := by decide

/-- C3 witness: the amended theorem at the standard topology and power 14
(threshold `2^6 = 64`). -/
theorem c3_witness :
    (1 ≤ 14 ∧ 14 < 32) ∧
    (is_full ⟨4096, 12⟩ 14 (2 ^ (32 - 12 - 14) - 1) = false ∧
     is_full ⟨4096, 12⟩ 14 (2 ^ (32 - 12 - 14)) = true ∧
     is_full ⟨4096, 12⟩ 0 7 = false) :=
  ⟨⟨by decide, by decide⟩, c3_is_full_threshold ⟨4096, 12⟩ 14 7 (by decide) (by decide)⟩

/-- C9: for every u8 power (including values ≥ 32), every u32 count and every
u32 quantum, the release-build computations are total and stay within machine
bounds: `pow2` clamps its exponent to 31 (so the u32 power cannot overflow),
`absolute_chunk_width` is clamped to `u32::MAX / 2`, the u64 product inside
`absolute_length` cannot overflow, `absolute_length` is capped at `2^32`, and
`is_full` is a total boolean function. -/
theorem c9_malformed_input_graceful (q qp p c : Nat)
    (hp : p ≤ 255) (hc : c < 2 ^ 32) (hq : q ≤ 2 ^ 32 - 1) :
    (min p 31 ≤ 31 ∧ pow2 p = 2 ^ (min p 31) ∧ pow2 p ≤ 2 ^ 31) ∧
    absolute_chunk_width ⟨q, qp⟩ p ≤ (2 ^ 32 - 1) / 2 ∧
    absolute_chunk_width ⟨q, qp⟩ p * c < 2 ^ 64 ∧
    absolute_length ⟨q, qp⟩ p c ≤ 2 ^ 32 ∧
    (is_full ⟨q, qp⟩ p c = true ∨ is_full ⟨q, qp⟩ p c = false) := by
  have hw : absolute_chunk_width ⟨q, qp⟩ p ≤ (2 ^ 32 - 1) / 2 := by
    unfold absolute_chunk_width U32_LEN
    exact min_le_right _ _
  refine ⟨⟨min_le_right _ _, rfl, Nat.pow_le_pow_right (by norm_num) (min_le_right p 31)⟩,
    hw, ?_, ?_, ?_⟩
  · have h1 : absolute_chunk_width ⟨q, qp⟩ p ≤ 2 ^ 31 := le_trans hw (by norm_num)
    have h2 : absolute_chunk_width ⟨q, qp⟩ p * c ≤ 2 ^ 31 * c := Nat.mul_le_mul_right _ h1
    have h3 : 2 ^ 31 * c < 2 ^ 31 * 2 ^ 32 := by
      have : (0 : Nat) < 2 ^ 31 := by norm_num
      exact (Nat.mul_lt_mul_left this).mpr hc
    calc absolute_chunk_width ⟨q, qp⟩ p * c ≤ 2 ^ 31 * c := h2
      _ < 2 ^ 31 * 2 ^ 32 := h3
      _ ≤ 2 ^ 64 := by norm_num
  · unfold absolute_length U32_LEN
    exact min_le_right _ _
  · cases is_full ⟨q, qp⟩ p c <;> simp

/-- C9 witness: a malformed power 200 (a u8 well above 31), the maximum u32
count and quantum, and a nonsensical quantum power 77 are all handled. -/
theorem c9_witness :
    (200 ≤ 255 ∧ (2 ^ 32 - 1 : Nat) < 2 ^ 32 ∧ (2 ^ 32 - 1 : Nat) ≤ 2 ^ 32 - 1) ∧
    ((min 200 31 ≤ 31 ∧ pow2 200 = 2 ^ (min 200 31) ∧ pow2 200 ≤ 2 ^ 31) ∧
     absolute_chunk_width ⟨2 ^ 32 - 1, 77⟩ 200 ≤ (2 ^ 32 - 1) / 2 ∧
     absolute_chunk_width ⟨2 ^ 32 - 1, 77⟩ 200 * (2 ^ 32 - 1) < 2 ^ 64 ∧
     absolute_length ⟨2 ^ 32 - 1, 77⟩ 200 (2 ^ 32 - 1) ≤ 2 ^ 32 ∧
     (is_full ⟨2 ^ 32 - 1, 77⟩ 200 (2 ^ 32 - 1) = true ∨
      is_full ⟨2 ^ 32 - 1, 77⟩ 200 (2 ^ 32 - 1) = false)) :=
  ⟨⟨by decide, by norm_num, by norm_num⟩,
    c9_malformed_input_graceful (2 ^ 32 - 1) 77 200 (2 ^ 32 - 1)
      (by decide) (by norm_num) (by norm_num)⟩

/-- C4 (amended): `ArqBounds::equivalent` compares starts and counts scaled by
the chunk widths *modulo `2^32`* (`wrapping_mul`).  Whenever those scaled
values all fit in a u32 — i.e. for arcs below full coverage — it coincides
exactly with denoting the same absolute interval.  In general the wrapping
breaks the claimed iff: a full-coverage arq has scaled length `2^32 ≡ 0`, so it
is equivalent to an empty arq with the same scaled start
(see `c4_counterexample`). -/
theorem c4_equivalent_characterizes_same_interval (topo : Topology) (a b : ArqBounds)
    (ha1 : a.start.val * absolute_chunk_width topo a.power < 2 ^ 32)
    (hb1 : b.start.val * absolute_chunk_width topo b.power < 2 ^ 32)
    (ha2 : a.count * absolute_chunk_width topo a.power < 2 ^ 32)
    (hb2 : b.count * absolute_chunk_width topo b.power < 2 ^ 32) :
    ArqBounds.equivalent topo a b = true ↔ denotes_same_interval topo a b := by
  have la : absolute_length topo a.power a.count
      = a.count * absolute_chunk_width topo a.power := by
    unfold absolute_length U32_LEN
    rw [Nat.mul_comm]
    exact Nat.min_eq_left (le_of_lt ha2)
  have lb : absolute_length topo b.power b.count
      = b.count * absolute_chunk_width topo b.power := by
    unfold absolute_length U32_LEN
    rw [Nat.mul_comm]
    exact Nat.min_eq_left (le_of_lt hb2)
  unfold ArqBounds.equivalent denotes_same_interval U32_LEN
  rw [Nat.mod_eq_of_lt ha1, Nat.mod_eq_of_lt hb1, Nat.mod_eq_of_lt ha2, Nat.mod_eq_of_lt hb2]
  rw [la, lb]
  simp [Bool.or_eq_true, Bool.and_eq_true, beq_iff_eq]

/-- C4 counterexample: under the unit topology, the full-coverage arq
`{start 0, power 12, count 2^20}` (scaled length `2^32`, wrapping to 0) is
`equivalent` to the empty arq `{start 0, power 12, count 0}`, although the two
denote different absolute intervals (full vs empty), refuting the claim's
"equivalent never holds for two arqs denoting different intervals". -/
theorem c4_counterexample :
    ArqBounds.equivalent ⟨1, 0⟩ ⟨⟨0⟩, 12, 2 ^ 20⟩ ⟨⟨0⟩, 12, 0⟩ = true ∧
    ¬ denotes_same_interval ⟨1, 0⟩ ⟨⟨0⟩, 12, 2 ^ 20⟩ ⟨⟨0⟩, 12, 0⟩ ∧
    is_full ⟨1, 0⟩ 12 (2 ^ 20) = true ∧ (0 : Nat) < 2 ^ 20 := by
  refine ⟨by decide, ?_, by decide, by decide⟩
  intro h
  exact absurd h (by decide)

/-- C4 witness: two below-full arqs with different terms denoting the same
interval (start `2·16 = 1·32`, length `4·16 = 2·32`). -/
theorem c4_witness :
    ((⟨⟨2⟩, 4, 4⟩ : ArqBounds).start.val * absolute_chunk_width ⟨1, 0⟩ 4 < 2 ^ 32 ∧
     (⟨⟨1⟩, 5, 2⟩ : ArqBounds).start.val * absolute_chunk_width ⟨1, 0⟩ 5 < 2 ^ 32 ∧
     (⟨⟨2⟩, 4, 4⟩ : ArqBounds).count * absolute_chunk_width ⟨1, 0⟩ 4 < 2 ^ 32 ∧
     (⟨⟨1⟩, 5, 2⟩ : ArqBounds).count * absolute_chunk_width ⟨1, 0⟩ 5 < 2 ^ 32) ∧
    (ArqBounds.equivalent ⟨1, 0⟩ ⟨⟨2⟩, 4, 4⟩ ⟨⟨1⟩, 5, 2⟩ = true ↔
      denotes_same_interval ⟨1, 0⟩ ⟨⟨2⟩, 4, 4⟩ ⟨⟨1⟩, 5, 2⟩) :=
  ⟨⟨by decide, by decide, by decide, by decide⟩,
    c4_equivalent_characterizes_same_interval ⟨1, 0⟩ ⟨⟨2⟩, 4, 4⟩ ⟨⟨1⟩, 5, 2⟩
      (by decide) (by decide) (by decide) (by decide)⟩

/-- Evaluation of `ArqStart::requantize_up` on a `SpaceOffset`. -/
theorem requantize_up_offset_eval (s factor : Nat) :
    ArqStart.requantize_up (⟨s⟩ : SpaceOffset) factor =
      if s % factor = 0 then some ⟨s / factor⟩ else none := rfl

/-- Evaluation of `ArqStart::requantize_down` on a `SpaceOffset`. -/
theorem requantize_down_offset_eval (s factor : Nat) :
    ArqStart.requantize_down (⟨s⟩ : SpaceOffset) factor = ⟨s * factor % 2 ^ 32⟩ := rfl

/-- Evaluation of `ArqStart::requantize_down` on a `Loc`. -/
theorem requantize_down_loc_eval (s factor : Nat) :
    ArqStart.requantize_down (⟨s⟩ : Loc) factor = ⟨s⟩ := rfl

/-- Powers of two below `2^32` are untouched by the u32 wrap. -/
theorem pow_mod_u32 (d : Nat) (hd : d < 32) : 2 ^ d % 2 ^ 32 = 2 ^ d :=
  Nat.mod_eq_of_lt (Nat.pow_lt_pow_right (by norm_num) hd)

/-- The exactness check of the requantize up-path, as divisibility. -/
theorem div_mul_eq_iff_mod (c f : Nat) (hf : 0 < f) : c = c / f * f ↔ c % f = 0 := by
  have h := Nat.div_add_mod c f
  have h2 : c / f * f = f * (c / f) := Nat.mul_comm _ _
  omega

/-- `requantize` on an `ArqBounds`, moving to a strictly higher power `q < 32`:
succeeds iff the factor divides both the count and the start offset. -/
theorem requantize_bounds_up (s p c q : Nat) (hpq : p < q) (hq : q < 32) :
    (⟨⟨s⟩, p, c⟩ : ArqBounds).requantize q =
      if 2 ^ (q - p) ∣ c ∧ 2 ^ (q - p) ∣ s
      then some ⟨⟨s / 2 ^ (q - p)⟩, q, c / 2 ^ (q - p)⟩ else none := by
  have hf : 2 ^ (q - p) % 2 ^ 32 = 2 ^ (q - p) := pow_mod_u32 _ (by omega)
  have hfpos : 0 < 2 ^ (q - p) := Nat.pos_pow_of_pos _ (by norm_num)
  simp only [Arq.requantize, U32_LEN, if_pos hpq, hf, requantize_up_offset_eval]
  by_cases hs : s % 2 ^ (q - p) = 0
  · rw [if_pos hs]
    by_cases hc : 2 ^ (q - p) ∣ c
    · have hceq : c = c / 2 ^ (q - p) * 2 ^ (q - p) :=
        (div_mul_eq_iff_mod c _ hfpos).mpr (Nat.mod_eq_zero_of_dvd hc)
      rw [if_pos ⟨hc, Nat.dvd_of_mod_eq_zero hs⟩]
      simp [← hceq]
    · have hcne : ¬ c = c / 2 ^ (q - p) * 2 ^ (q - p) := fun h =>
        hc (Nat.dvd_of_mod_eq_zero ((div_mul_eq_iff_mod c _ hfpos).mp h))
      rw [if_neg (fun h => hc h.1)]
      simp [hcne]
  · rw [if_neg hs, if_neg (fun h => hs (Nat.mod_eq_zero_of_dvd h.2))]

/-- `requantize` on an `ArqBounds`, moving to a lower or equal power: always
succeeds; the start offset and count are multiplied with u32 wrapping. -/
theorem requantize_bounds_down (s p c q : Nat) (hqp : q ≤ p) (hp : p < 32) :
    (⟨⟨s⟩, p, c⟩ : ArqBounds).requantize q =
      some ⟨⟨s * 2 ^ (p - q) % 2 ^ 32⟩, q, c * 2 ^ (p - q) % 2 ^ 32⟩ := by
  have hf : 2 ^ (p - q) % 2 ^ 32 = 2 ^ (p - q) := pow_mod_u32 _ (by omega)
  simp only [Arq.requantize, U32_LEN, if_neg (by omega : ¬ p < q), hf,
    requantize_down_offset_eval]

/-- `requantize` on a located `Arq`, moving to a strictly higher power `q < 32`:
the `Loc` start always requantizes; success depends only on the count. -/
theorem requantize_loc_up (s p c q : Nat) (hpq : p < q) (hq : q < 32) :
    (⟨⟨s⟩, p, c⟩ : ArqLocated).requantize q =
      if 2 ^ (q - p) ∣ c then some ⟨⟨s⟩, q, c / 2 ^ (q - p)⟩ else none := by
  have hf : 2 ^ (q - p) % 2 ^ 32 = 2 ^ (q - p) := pow_mod_u32 _ (by omega)
  have hfpos : 0 < 2 ^ (q - p) := Nat.pos_pow_of_pos _ (by norm_num)
  have hiff : (c = c / 2 ^ (q - p) * 2 ^ (q - p)) ↔ 2 ^ (q - p) ∣ c := by
    rw [div_mul_eq_iff_mod c _ hfpos]
    exact ⟨Nat.dvd_of_mod_eq_zero, Nat.mod_eq_zero_of_dvd⟩
  simp only [Arq.requantize, U32_LEN, if_pos hpq, hf, ArqStart.requantize_up]
  exact if_congr hiff rfl rfl

/-- `requantize` on a located `Arq`, moving to a lower or equal power: always
succeeds, leaving the absolute start untouched. -/
theorem requantize_loc_down (s p c q : Nat) (hqp : q ≤ p) (hp : p < 32) :
    (⟨⟨s⟩, p, c⟩ : ArqLocated).requantize q =
      some ⟨⟨s⟩, q, c * 2 ^ (p - q) % 2 ^ 32⟩ := by
  have hf : 2 ^ (p - q) % 2 ^ 32 = 2 ^ (p - q) := pow_mod_u32 _ (by omega)
  simp only [Arq.requantize, U32_LEN, if_neg (by omega : ¬ p < q), hf,
    requantize_down_loc_eval]

/-- C2 (amended): requantize exactness, for valid powers `p, q < 32`.  Moving
up (`p < q`) returns `Some` iff `2^(q-p)` divides the count (and, for an
`ArqBounds` start, the start offset; a located `Loc` start always succeeds),
with count `c / 2^(q-p)`.  Moving down (`q ≤ p`) always returns `Some`, with
count and offset start multiplied by `2^(p-q)` *modulo `2^32`* (u32 wrapping;
the claim's unreduced product fails for large counts, see `c2_counterexample`).
The `{start 42, power 20, count 10}` scenario from the claim is included. -/
theorem c2_requantize_exactness (s p c q : Nat)
    (hp : p < 32) (hq : q < 32) :
    (p < q →
      (⟨⟨s⟩, p, c⟩ : ArqBounds).requantize q =
        (if 2 ^ (q - p) ∣ c ∧ 2 ^ (q - p) ∣ s
         then some ⟨⟨s / 2 ^ (q - p)⟩, q, c / 2 ^ (q - p)⟩ else none)) ∧
    (q ≤ p →
      (⟨⟨s⟩, p, c⟩ : ArqBounds).requantize q =
        some ⟨⟨s * 2 ^ (p - q) % 2 ^ 32⟩, q, c * 2 ^ (p - q) % 2 ^ 32⟩) ∧
    (p < q →
      (⟨⟨s⟩, p, c⟩ : ArqLocated).requantize q =
        (if 2 ^ (q - p) ∣ c then some ⟨⟨s⟩, q, c / 2 ^ (q - p)⟩ else none)) ∧
    (q ≤ p →
      (⟨⟨s⟩, p, c⟩ : ArqLocated).requantize q =
        some ⟨⟨s⟩, q, c * 2 ^ (p - q) % 2 ^ 32⟩) ∧
    ((⟨⟨42⟩, 20, 10⟩ : ArqLocated).requantize 18 = some ⟨⟨42⟩, 18, 40⟩ ∧
     (⟨⟨42⟩, 20, 10⟩ : ArqLocated).requantize 21 = some ⟨⟨42⟩, 21, 5⟩ ∧
     (⟨⟨42⟩, 20, 10⟩ : ArqLocated).requantize 22 = none) :=
  ⟨fun hpq => requantize_bounds_up s p c q hpq hq,
   fun hqp => requantize_bounds_down s p c q hqp hp,
   fun hpq => requantize_loc_up s p c q hpq hq,
   fun hqp => requantize_loc_down s p c q hqp hp,
   by decide, by decide, by decide⟩

/-- C2 counterexample: the down-step multiplication wraps.  Requantizing the
valid arq `{start 0, power 31, count 2}` to power 0 yields count
`2 · 2^31 mod 2^32 = 0`, not the claim's `c · 2^(p-q) = 2^32`. -/
theorem c2_counterexample :
    (⟨⟨0⟩, 31, 2⟩ : ArqBounds).requantize 0 = some ⟨⟨0⟩, 0, 0⟩ ∧
    ¬ ((⟨⟨0⟩, 31, 2⟩ : ArqBounds).requantize 0 = some ⟨⟨0⟩, 0, 2 * 2 ^ (31 - 0)⟩) := by
  constructor
  · decide
  · decide

/-- C2 witness: `{start 8, power 2, count 12}` requantized up to power 3 on
both flavors, and down from the theorem's `q ≤ p` clause at `q = 1`. -/
theorem c2_witness :
    ((2 : Nat) < 32 ∧ (3 : Nat) < 32) ∧
    ((2 < 3 →
       (⟨⟨8⟩, 2, 12⟩ : ArqBounds).requantize 3 =
         (if 2 ^ (3 - 2) ∣ 12 ∧ 2 ^ (3 - 2) ∣ 8
          then some ⟨⟨8 / 2 ^ (3 - 2)⟩, 3, 12 / 2 ^ (3 - 2)⟩ else none)) ∧
     (3 ≤ 2 →
       (⟨⟨8⟩, 2, 12⟩ : ArqBounds).requantize 3 =
         some ⟨⟨8 * 2 ^ (2 - 3) % 2 ^ 32⟩, 3, 12 * 2 ^ (2 - 3) % 2 ^ 32⟩) ∧
     (2 < 3 →
       (⟨⟨8⟩, 2, 12⟩ : ArqLocated).requantize 3 =
         (if 2 ^ (3 - 2) ∣ 12 then some ⟨⟨8⟩, 3, 12 / 2 ^ (3 - 2)⟩ else none)) ∧
     (3 ≤ 2 →
       (⟨⟨8⟩, 2, 12⟩ : ArqLocated).requantize 3 =
         some ⟨⟨8⟩, 3, 12 * 2 ^ (2 - 3) % 2 ^ 32⟩) ∧
     ((⟨⟨42⟩, 20, 10⟩ : ArqLocated).requantize 18 = some ⟨⟨42⟩, 18, 40⟩ ∧
      (⟨⟨42⟩, 20, 10⟩ : ArqLocated).requantize 21 = some ⟨⟨42⟩, 21, 5⟩ ∧
      (⟨⟨42⟩, 20, 10⟩ : ArqLocated).requantize 22 = none)) :=
  ⟨⟨by decide, by decide⟩, c2_requantize_exactness 8 2 12 3 (by decide) (by decide)⟩

/-- C5 (amended): requantize round-trip for valid powers `p, q < 32` and u32
fields.  Whenever `requantize q` returns `Some r` *and the step toward `q` did
not wrap the u32 count/start multiplication* (automatic for an up-step; the
stated bounds for a down-step), `r.requantize p` returns the original arq; and
a lossy up-step returns `None` at that up-step.  Without the no-wrap bounds the
round-trip fails, see `c5_counterexample`. -/
theorem c5_requantize_roundtrip (s p c q : Nat)
    (hp : p < 32) (hq : q < 32) (hc : c < 2 ^ 32) (hs : s < 2 ^ 32)
    (hcw : q < p → c * 2 ^ (p - q) < 2 ^ 32)
    (hsw : q < p → s * 2 ^ (p - q) < 2 ^ 32) :
    (((⟨⟨s⟩, p, c⟩ : ArqLocated).requantize q).isSome = true →
       Option.bind ((⟨⟨s⟩, p, c⟩ : ArqLocated).requantize q) (fun r => r.requantize p) =
         some ⟨⟨s⟩, p, c⟩) ∧
    (((⟨⟨s⟩, p, c⟩ : ArqBounds).requantize q).isSome = true →
       Option.bind ((⟨⟨s⟩, p, c⟩ : ArqBounds).requantize q) (fun r => r.requantize p) =
         some ⟨⟨s⟩, p, c⟩) ∧
    (p < q → ¬ 2 ^ (q - p) ∣ c → (⟨⟨s⟩, p, c⟩ : ArqLocated).requantize q = none) ∧
    (p < q → ¬ (2 ^ (q - p) ∣ c ∧ 2 ^ (q - p) ∣ s) →
       (⟨⟨s⟩, p, c⟩ : ArqBounds).requantize q = none) := by
  refine ⟨?_, ?_, ?_, ?_⟩
  · rcases lt_trichotomy p q with hpq | rfl | hqp
    · rw [requantize_loc_up s p c q hpq hq]
      by_cases hdvd : 2 ^ (q - p) ∣ c
      · rw [if_pos hdvd]
        intro _
        simp only [Option.bind]
        rw [requantize_loc_down s q (c / 2 ^ (q - p)) p (le_of_lt hpq) hq,
          Nat.div_mul_cancel hdvd, Nat.mod_eq_of_lt hc]
      · rw [if_neg hdvd]
        intro h
        exact absurd h (by simp)
    · intro _
      rw [requantize_loc_down s p c p le_rfl hp]
      simp only [Option.bind, Nat.sub_self, pow_zero, Nat.mul_one, Nat.mod_eq_of_lt hc]
      rw [requantize_loc_down s p c p le_rfl hp]
      simp only [Nat.sub_self, pow_zero, Nat.mul_one, Nat.mod_eq_of_lt hc]
    · intro _
      rw [requantize_loc_down s p c q (le_of_lt hqp) hp]
      simp only [Option.bind]
      rw [Nat.mod_eq_of_lt (hcw hqp)]
      rw [requantize_loc_up s q (c * 2 ^ (p - q)) p hqp hp]
      rw [if_pos (dvd_mul_left _ _)]
      rw [Nat.mul_div_cancel c (Nat.pos_pow_of_pos _ (by norm_num))]
  · rcases lt_trichotomy p q with hpq | rfl | hqp
    · rw [requantize_bounds_up s p c q hpq hq]
      by_cases hdvd : 2 ^ (q - p) ∣ c ∧ 2 ^ (q - p) ∣ s
      · rw [if_pos hdvd]
        intro _
        simp only [Option.bind]
        rw [requantize_bounds_down (s / 2 ^ (q - p)) q (c / 2 ^ (q - p)) p
          (le_of_lt hpq) hq, Nat.div_mul_cancel hdvd.1, Nat.div_mul_cancel hdvd.2,
          Nat.mod_eq_of_lt hc, Nat.mod_eq_of_lt hs]
      · rw [if_neg hdvd]
        intro h
        exact absurd h (by simp)
    · intro _
      rw [requantize_bounds_down s p c p le_rfl hp]
      simp only [Option.bind, Nat.sub_self, pow_zero, Nat.mul_one,
        Nat.mod_eq_of_lt hc, Nat.mod_eq_of_lt hs]
      rw [requantize_bounds_down s p c p le_rfl hp]
      simp only [Nat.sub_self, pow_zero, Nat.mul_one, Nat.mod_eq_of_lt hc,
        Nat.mod_eq_of_lt hs]
    · intro _
      rw [requantize_bounds_down s p c q (le_of_lt hqp) hp]
      simp only [Option.bind]
      rw [Nat.mod_eq_of_lt (hcw hqp), Nat.mod_eq_of_lt (hsw hqp)]
      rw [requantize_bounds_up (s * 2 ^ (p - q)) q (c * 2 ^ (p - q)) p hqp hp]
      rw [if_pos ⟨dvd_mul_left _ _, dvd_mul_left _ _⟩]
      rw [Nat.mul_div_cancel c (Nat.pos_pow_of_pos _ (by norm_num)),
        Nat.mul_div_cancel s (Nat.pos_pow_of_pos _ (by norm_num))]
  · intro hpq hdvd
    rw [requantize_loc_up s p c q hpq hq]
    exact if_neg hdvd
  · intro hpq hdvd
    rw [requantize_bounds_up s p c q hpq hq]
    exact if_neg hdvd

/-- C5 counterexample: the valid arq `{start 0, power 31, count 2}` requantized
to power 0 returns `Some` (so the claim asserts a round-trip), yet the wrapped
count makes the round-trip land on `{start 0, power 31, count 0}`, not the
original. -/
theorem c5_counterexample :
    (⟨⟨0⟩, 31, 2⟩ : ArqBounds).requantize 0 = some ⟨⟨0⟩, 0, 0⟩ ∧
    (⟨⟨0⟩, 0, 0⟩ : ArqBounds).requantize 31 = some ⟨⟨0⟩, 31, 0⟩ ∧
    (⟨⟨0⟩, 31, 0⟩ : ArqBounds) ≠ ⟨⟨0⟩, 31, 2⟩ := by
  refine ⟨by decide, by decide, by decide⟩

/-- C5 witness: `{start 4, power 3, count 6}` requantized up to power 4 and
back, on both flavors; the lossy clauses are exercised vacuously. -/
theorem c5_witness :
    ((3 : Nat) < 32 ∧ (4 : Nat) < 32 ∧ (6 : Nat) < 2 ^ 32 ∧ (4 : Nat) < 2 ^ 32 ∧
     (4 < 3 → (6 * 2 ^ (3 - 4) : Nat) < 2 ^ 32) ∧
     (4 < 3 → (4 * 2 ^ (3 - 4) : Nat) < 2 ^ 32)) ∧
    ((((⟨⟨4⟩, 3, 6⟩ : ArqLocated).requantize 4).isSome = true →
       Option.bind ((⟨⟨4⟩, 3, 6⟩ : ArqLocated).requantize 4) (fun r => r.requantize 3) =
         some ⟨⟨4⟩, 3, 6⟩) ∧
     (((⟨⟨4⟩, 3, 6⟩ : ArqBounds).requantize 4).isSome = true →
       Option.bind ((⟨⟨4⟩, 3, 6⟩ : ArqBounds).requantize 4) (fun r => r.requantize 3) =
         some ⟨⟨4⟩, 3, 6⟩) ∧
     (3 < 4 → ¬ 2 ^ (4 - 3) ∣ 6 → (⟨⟨4⟩, 3, 6⟩ : ArqLocated).requantize 4 = none) ∧
     (3 < 4 → ¬ (2 ^ (4 - 3) ∣ 6 ∧ 2 ^ (4 - 3) ∣ 4) →
        (⟨⟨4⟩, 3, 6⟩ : ArqBounds).requantize 4 = none)) :=
  ⟨⟨by decide, by decide, by decide, by decide, by decide, by decide⟩,
    c5_requantize_roundtrip 4 3 6 4 (by decide) (by decide) (by decide) (by decide)
      (by decide) (by decide)⟩

/-- A nonempty list's `isEmpty` is false. -/
theorem isEmpty_eq_false_of_ne_nil {α : Type} (l : List α) (h : l ≠ []) :
    l.isEmpty = false := by
  cases l with
  | nil => exact absurd rfl h
  | cons x xs => rfl

/-- `incoming_initiate` when the peer is our current initiate target, no round
exists yet, and our tie-break id is at least the remote's: we yield, returning
the state unchanged and no messages. -/
theorem incoming_initiate_yield (i : GossipInner) (cert rid : Nat)
    (tgt : ShardedGossipTarget)
    (hr : i.round_map.contains cert = false)
    (ht : i.initiate_tgt = some tgt) (hcert : tgt.cert = cert)
    (hge : rid ≤ tgt.tie_break)
    (r : List Nat) (la : List ArqBounds) (ag : List Nat) (g : List Wire) :
    incoming_initiate i cert rid r la ag g = (i, []) := by
  simp only [incoming_initiate, hr, ht, hcert, beq_self_eq_true, if_true,
    Bool.false_eq_true, if_false, hge, if_pos]

/-- `incoming_initiate` when the peer is our current initiate target, no round
exists yet, our tie-break id is strictly below the remote's, and we have local
agents: we drop our outgoing target and accept. -/
theorem incoming_initiate_proceed (i : GossipInner) (cert rid : Nat)
    (tgt : ShardedGossipTarget)
    (hr : i.round_map.contains cert = false)
    (ht : i.initiate_tgt = some tgt) (hcert : tgt.cert = cert)
    (hlt : tgt.tie_break < rid)
    (hag : i.local_agents ≠ [])
    (r : List Nat) (la : List ArqBounds) (ag : List Nat) (g : List Wire) :
    incoming_initiate i cert rid r la ag g =
      (finish_accept { i with initiate_tgt := none } cert r,
       Wire.accept la ag :: g) := by
  have hnot : ¬ rid ≤ tgt.tie_break := by omega
  have hie : i.local_agents.isEmpty = false := isEmpty_eq_false_of_ne_nil _ hag
  simp only [incoming_initiate, hr, ht, hcert, beq_self_eq_true, if_true,
    Bool.false_eq_true, if_false, hnot, hie]

/-- C1: tie-break determinism of `incoming_initiate`.  A peer that is currently
initiating with the incoming certificate (an outgoing target for that cert, no
active round yet, and — having initiated — a nonempty local agent list) behaves
as claimed: with local id `a` and remote id `b`, if `a ≥ b` it returns an empty
message list and leaves the state untouched; if `a < b` it clears its outgoing
target, registers the round and replies starting with `Accept`.  Consequently,
of two peers simultaneously initiating to each other, exactly the one with the
strictly smaller id proceeds, and equal ids make both sides abort. -/
theorem c1_tie_break_determinism
    (iA iB : GossipInner) (certA certB a b : Nat)
    (wA wB : Option Nat) (rlA rlB rA rB agA agB : List Nat)
    (arqsA arqsB : List ArqBounds) (gA gB : List Wire)
    (hrA : iA.round_map.contains certB = false)
    (htA : iA.initiate_tgt = some ⟨certB, a, wA, rlA⟩)
    (haA : iA.local_agents ≠ [])
    (hrB : iB.round_map.contains certA = false)
    (htB : iB.initiate_tgt = some ⟨certA, b, wB, rlB⟩)
    (haB : iB.local_agents ≠ []) :
    (b ≤ a → incoming_initiate iA certB b rB arqsA agA gA = (iA, [])) ∧
    (a < b →
      (incoming_initiate iA certB b rB arqsA agA gA).2 = Wire.accept arqsA agA :: gA ∧
      (incoming_initiate iA certB b rB arqsA agA gA).1.initiate_tgt = none ∧
      (incoming_initiate iA certB b rB arqsA agA gA).1.round_map = certB :: iA.round_map) ∧
    (a = b → (incoming_initiate iA certB b rB arqsA agA gA).2 = [] ∧
             (incoming_initiate iB certA a rA arqsB agB gB).2 = []) ∧
    (a < b → (incoming_initiate iA certB b rB arqsA agA gA).2 ≠ [] ∧
             (incoming_initiate iB certA a rA arqsB agB gB).2 = []) ∧
    (b < a → (incoming_initiate iA certB b rB arqsA agA gA).2 = [] ∧
             (incoming_initiate iB certA a rA arqsB agB gB).2 ≠ []) := by
  refine ⟨?_, ?_, ?_, ?_, ?_⟩
  · intro hba
    exact incoming_initiate_yield iA certB b ⟨certB, a, wA, rlA⟩ hrA htA rfl hba rB arqsA agA gA
  · intro hab
    rw [incoming_initiate_proceed iA certB b ⟨certB, a, wA, rlA⟩ hrA htA rfl hab haA
      rB arqsA agA gA]
    refine ⟨rfl, rfl, rfl⟩
  · intro hab
    constructor
    · rw [incoming_initiate_yield iA certB b ⟨certB, a, wA, rlA⟩ hrA htA rfl
        (by dsimp only; omega) rB arqsA agA gA]
    · rw [incoming_initiate_yield iB certA a ⟨certA, b, wB, rlB⟩ hrB htB rfl
        (by dsimp only; omega) rA arqsB agB gB]
  · intro hab
    constructor
    · rw [incoming_initiate_proceed iA certB b ⟨certB, a, wA, rlA⟩ hrA htA rfl hab haA
        rB arqsA agA gA]
      simp
    · rw [incoming_initiate_yield iB certA a ⟨certA, b, wB, rlB⟩ hrB htB rfl
        (by dsimp only; omega) rA arqsB agB gB]
  · intro hba
    constructor
    · rw [incoming_initiate_yield iA certB b ⟨certB, a, wA, rlA⟩ hrA htA rfl
        (by dsimp only; omega) rB arqsA agA gA]
    · rw [incoming_initiate_proceed iB certA a ⟨certA, b, wB, rlB⟩ hrB htB rfl hba haB
        rA arqsB agB gB]
      simp

/-- C1 witness: peer A (cert 0, id 5) and peer B (cert 1, id 7) simultaneously
initiating with each other; A proceeds, B yields. -/
theorem c1_witness :
    (((⟨[], some ⟨1, 5, some 0, []⟩, [9]⟩ : GossipInner).round_map.contains 1 = false) ∧
     ((⟨[], some ⟨1, 5, some 0, []⟩, [9]⟩ : GossipInner).initiate_tgt =
        some ⟨1, 5, some 0, []⟩) ∧
     ((⟨[], some ⟨1, 5, some 0, []⟩, [9]⟩ : GossipInner).local_agents ≠ []) ∧
     ((⟨[], some ⟨0, 7, some 0, []⟩, [8]⟩ : GossipInner).round_map.contains 0 = false) ∧
     ((⟨[], some ⟨0, 7, some 0, []⟩, [8]⟩ : GossipInner).initiate_tgt =
        some ⟨0, 7, some 0, []⟩) ∧
     ((⟨[], some ⟨0, 7, some 0, []⟩, [8]⟩ : GossipInner).local_agents ≠ [])) ∧
    ((7 ≤ 5 →
       incoming_initiate ⟨[], some ⟨1, 5, some 0, []⟩, [9]⟩ 1 7 [] [] [] [] =
         (⟨[], some ⟨1, 5, some 0, []⟩, [9]⟩, [])) ∧
     (5 < 7 →
       (incoming_initiate ⟨[], some ⟨1, 5, some 0, []⟩, [9]⟩ 1 7 [] [] [] []).2 =
         Wire.accept [] [] :: [] ∧
       (incoming_initiate ⟨[], some ⟨1, 5, some 0, []⟩, [9]⟩ 1 7 [] [] [] []).1.initiate_tgt =
         none ∧
       (incoming_initiate ⟨[], some ⟨1, 5, some 0, []⟩, [9]⟩ 1 7 [] [] [] []).1.round_map =
         1 :: (⟨[], some ⟨1, 5, some 0, []⟩, [9]⟩ : GossipInner).round_map) ∧
     (5 = 7 →
       (incoming_initiate ⟨[], some ⟨1, 5, some 0, []⟩, [9]⟩ 1 7 [] [] [] []).2 = [] ∧
       (incoming_initiate ⟨[], some ⟨0, 7, some 0, []⟩, [8]⟩ 0 5 [] [] [] []).2 = []) ∧
     (5 < 7 →
       (incoming_initiate ⟨[], some ⟨1, 5, some 0, []⟩, [9]⟩ 1 7 [] [] [] []).2 ≠ [] ∧
       (incoming_initiate ⟨[], some ⟨0, 7, some 0, []⟩, [8]⟩ 0 5 [] [] [] []).2 = []) ∧
     (7 < 5 →
       (incoming_initiate ⟨[], some ⟨1, 5, some 0, []⟩, [9]⟩ 1 7 [] [] [] []).2 = [] ∧
       (incoming_initiate ⟨[], some ⟨0, 7, some 0, []⟩, [8]⟩ 0 5 [] [] [] []).2 ≠ [])) :=
  ⟨⟨by decide, by decide, by decide, by decide, by decide, by decide⟩,
    c1_tie_break_determinism ⟨[], some ⟨1, 5, some 0, []⟩, [9]⟩
      ⟨[], some ⟨0, 7, some 0, []⟩, [8]⟩ 0 1 5 7 (some 0) (some 0) [] [] [] [] [] []
      [] [] [] []
      (by decide) (by decide) (by decide) (by decide) (by decide) (by decide)⟩

/-- C8 (amended): when `incoming_initiate` is called while the local agent list
is empty, *and neither earlier branch fires* — no round already exists for the
peer certificate and the tie-break yield case does not apply — it returns
exactly one message, `NoAgents`.  The as-stated claim fails because the
already-in-progress check precedes the agents check (see `c8_counterexample`). -/
theorem c8_no_agents_reply (i : GossipInner) (peer_cert remote_id : Nat)
    (r : List Nat) (la : List ArqBounds) (ag : List Nat) (g : List Wire)
    (hempty : i.local_agents = [])
    (hr : i.round_map.contains peer_cert = false)
    (htie : tie_break_yield_excluded i peer_cert remote_id) :
    (incoming_initiate i peer_cert remote_id r la ag g).2 = [Wire.noAgents] := by
  unfold tie_break_yield_excluded at htie
  cases ht : i.initiate_tgt with
  | none =>
    rw [ht] at htie
    simp only [incoming_initiate, hr, ht, Bool.false_eq_true, if_false, hempty,
      List.isEmpty_nil, if_true]
  | some tgt =>
    rw [ht] at htie
    by_cases hcert : tgt.cert = peer_cert
    · have hlt : tgt.tie_break < remote_id := htie hcert
      have hnot : ¬ remote_id ≤ tgt.tie_break := by omega
      simp only [incoming_initiate, hr, ht, hcert, beq_self_eq_true, if_true,
        Bool.false_eq_true, if_false, hnot, hempty, List.isEmpty_nil]
    · have hbeq : (tgt.cert == peer_cert) = false := by
        simp [hcert]
      simp only [incoming_initiate, hr, ht, hbeq, Bool.false_eq_true, if_false,
        hempty, List.isEmpty_nil, if_true]

/-- C8 counterexample: with an empty local agent list but an already-active
round for the peer certificate, `incoming_initiate` replies
`AlreadyInProgress`, not `NoAgents`, refuting the claim's "whenever". -/
theorem c8_counterexample :
    (⟨[7], none, []⟩ : GossipInner).local_agents = [] ∧
    (incoming_initiate ⟨[7], none, []⟩ 7 3 [] [] [] []).2 = [Wire.alreadyInProgress] ∧
    (incoming_initiate ⟨[7], none, []⟩ 7 3 [] [] [] []).2 ≠ [Wire.noAgents] := by
  refine ⟨rfl, by decide, by decide⟩

/-- C8 witness: empty agent list, no active round, no outgoing target. -/
theorem c8_witness :
    ((⟨[], none, []⟩ : GossipInner).local_agents = [] ∧
     (⟨[], none, []⟩ : GossipInner).round_map.contains 2 = false ∧
     tie_break_yield_excluded ⟨[], none, []⟩ 2 3) ∧
    (incoming_initiate ⟨[], none, []⟩ 2 3 [] [] [] []).2 = [Wire.noAgents] :=
  ⟨⟨by decide, by decide, by decide⟩,
    c8_no_agents_reply ⟨[], none, []⟩ 2 3 [] [] [] [] (by decide) (by decide) (by decide)⟩

/-- The bloom-emitting loop increments the expected counter once per bloom, and
every message it emits is a counted (`HaveHashes`/`MissingAllHashes`) bloom. -/
theorem emit_loop_expected (len : Nat) (l : List TimedBloom) :
    ∀ (i : Nat) (st : RoundState),
      (emit_loop len i l st).1.expected_op_bloom_count =
        st.expected_op_bloom_count + l.length ∧
      countCountedOpBlooms (emit_loop len i l st).2 = l.length := by
  induction l with
  | nil =>
    intro i st
    simp [emit_loop, countCountedOpBlooms]
  | cons b rest ih =>
    intro i st
    obtain ⟨ih1, ih2⟩ := ih (i + 1) (increment_expected_op_blooms st)
    cases hb : b.bloom with
    | some f =>
      simp only [emit_loop, hb, countCountedOpBlooms, List.length_cons, ih1, ih2]
      refine ⟨?_, trivial⟩
      simp only [increment_expected_op_blooms]
      omega
    | none =>
      simp only [emit_loop, hb, countCountedOpBlooms, List.length_cons, ih1, ih2]
      refine ⟨?_, trivial⟩
      simp only [increment_expected_op_blooms]
      omega

/-- C6 (amended): `expected_op_bloom_count` rises by exactly the number of
emitted `OpBloom` messages that carry `HaveHashes` or `MissingAllHashes`.  The
`NoOverlap` bloom emitted when the op-query returns zero hashes is pushed
*without* incrementing the counter, so the as-stated claim — which counts every
`OpBloom`, `NoOverlap` included — fails (see `c6_counterexample`). -/
theorem c6_expected_bloom_accounting (st : RoundState) (res : Batch) :
    (next_bloom_batch st res).1.expected_op_bloom_count =
      st.expected_op_bloom_count +
        countCountedOpBlooms (next_bloom_batch st res).2 := by
  cases res with
  | complete d =>
    cases d with
    | nil => simp [next_bloom_batch, emit_loop, countCountedOpBlooms]
    | cons b rest =>
      obtain ⟨h1, h2⟩ :=
        emit_loop_expected (rest.length + 1) (b :: rest) 0
          { st with bloom_batch_cursor := none }
      simp only [List.length_cons] at h1 h2
      simp only [next_bloom_batch, List.isEmpty_cons, Bool.false_eq_true, if_false,
        List.nil_append, List.length_cons, h1, h2]
  | cursored cur d =>
    cases d with
    | nil => simp [next_bloom_batch, emit_loop, countCountedOpBlooms]
    | cons b rest =>
      obtain ⟨h1, h2⟩ :=
        emit_loop_expected (rest.length + 1) (b :: rest) 0
          { st with bloom_batch_cursor := some cur }
      simp only [List.length_cons] at h1 h2
      simp only [next_bloom_batch, List.isEmpty_cons, Bool.false_eq_true, if_false,
        List.nil_append, List.length_cons, h1, h2]

/-- C6 counterexample: an op-query returning zero hashes makes
`next_bloom_batch` push one `OpBloom` (`NoOverlap`) while the expected counter
stays at 5, refuting "expected_op_bloom_count has increased by exactly n". -/
theorem c6_counterexample :
    countOpBlooms (next_bloom_batch ⟨none, 5⟩ (Batch.complete [])).2 = 1 ∧
    (next_bloom_batch ⟨none, 5⟩ (Batch.complete [])).1.expected_op_bloom_count = 5 ∧
    (5 : Nat) ≠ 5 + 1 := by
  refine ⟨by decide, by decide, by decide⟩

/-- The final flags produced by the bloom-emitting loop: position `j` (starting
at index `i`) is flagged iff it is the last index (`i + j = len - 1`) and the
state carries no continuation cursor. -/
theorem emit_loop_flags (len : Nat) (l : List TimedBloom) :
    ∀ (i : Nat) (st : RoundState),
      finalFlags (emit_loop len i l st).2 =
        (List.range l.length).map
          (fun j => (i + j == len - 1) && st.bloom_batch_cursor.isNone) := by
  induction l with
  | nil =>
    intro i st
    simp [emit_loop, finalFlags]
  | cons b rest ih =>
    intro i st
    have hcur : (increment_expected_op_blooms st).bloom_batch_cursor =
        st.bloom_batch_cursor := rfl
    cases hb : b.bloom with
    | some f =>
      simp only [emit_loop, hb, finalFlags, List.length_cons, ih (i + 1)
        (increment_expected_op_blooms st), hcur]
      rw [List.range_succ_eq_map]
      simp only [List.map_cons, List.map_map, Nat.add_zero]
      refine congrArg₂ _ rfl ?_
      refine List.map_congr_left fun j hj => ?_
      have : i + 1 + j = i + (j + 1) := by omega
      simp [Function.comp, this]
    | none =>
      simp only [emit_loop, hb, finalFlags, List.length_cons, ih (i + 1)
        (increment_expected_op_blooms st), hcur]
      rw [List.range_succ_eq_map]
      simp only [List.map_cons, List.map_map, Nat.add_zero]
      refine congrArg₂ _ rfl ?_
      refine List.map_congr_left fun j hj => ?_
      have : i + 1 + j = i + (j + 1) := by omega
      simp [Function.comp, this]

/-- C7 (amended): in a `Complete` batch the last emitted bloom (and only it)
carries `is_final = true`; in a `Partial` batch, which saves a continuation
cursor on the round state, *every* loop-emitted bloom carries
`is_final = false` (the as-stated claim fails there, see `c7_counterexample`);
and the `NoOverlap` bloom emitted for an empty reply always carries
`is_final = true`, even when a cursor was saved. -/
theorem c7_final_flagging (st : RoundState) (res : Batch) :
    finalFlags (next_bloom_batch st res).2 = batch_final_flags res := by
  cases res with
  | complete d =>
    cases d with
    | nil => simp [next_bloom_batch, emit_loop, finalFlags, batch_final_flags]
    | cons b rest =>
      simp only [next_bloom_batch, List.isEmpty_cons, Bool.false_eq_true, if_false,
        List.nil_append, batch_final_flags,
        emit_loop_flags (b :: rest).length (b :: rest) 0
          { st with bloom_batch_cursor := none }]
      simp
  | cursored cur d =>
    cases d with
    | nil => simp [next_bloom_batch, emit_loop, finalFlags, batch_final_flags]
    | cons b rest =>
      simp only [next_bloom_batch, List.isEmpty_cons, Bool.false_eq_true, if_false,
        List.nil_append, batch_final_flags,
        emit_loop_flags (b :: rest).length (b :: rest) 0
          { st with bloom_batch_cursor := some cur }]
      simp [List.map_const', List.replicate_succ]

/-- C7 counterexample: a `Partial` batch holding a single bloom emits it with
`is_final = false`, while the claim demands the last bloom of the batch carry
`is_final = true`. -/
theorem c7_counterexample :
    (next_bloom_batch ⟨none, 0⟩ (Batch.cursored 5 [⟨0, some 3⟩])).2 =
      [Wire.opBloom (EncodedTimedBloomFilter.HaveHashes 3 0) false] ∧
    (next_bloom_batch ⟨none, 0⟩ (Batch.cursored 5 [⟨0, some 3⟩])).2 ≠
      [Wire.opBloom (EncodedTimedBloomFilter.HaveHashes 3 0) true] := by
  refine ⟨by decide, by decide⟩

/-- `ctzFuel` computes a true trailing-zero count: its power of two divides the
input and the quotient is odd, for any positive input below `2^fuel`. -/
theorem ctzFuel_spec (fuel : Nat) : ∀ n : Nat, 0 < n → n < 2 ^ fuel →
    2 ^ ctzFuel fuel n ∣ n ∧ n / 2 ^ ctzFuel fuel n % 2 = 1 := by
  induction fuel with
  | zero =>
    intro n h0 hf
    simp at hf
    omega
  | succ fuel ih =>
    intro n h0 hf
    by_cases he : n % 2 = 0
    · have h2 : 0 < n / 2 := by omega
      have hpow : 2 ^ (fuel + 1) = 2 ^ fuel * 2 := pow_succ 2 fuel
      have hlt : n / 2 < 2 ^ fuel := by omega
      obtain ⟨hd, ho⟩ := ih (n / 2) h2 hlt
      constructor
      · simp only [ctzFuel, if_pos he]
        obtain ⟨k, hk⟩ := hd
        have hn : n = 2 * (n / 2) := by omega
        refine ⟨k, ?_⟩
        calc n = 2 * (n / 2) := hn
          _ = 2 * (2 ^ ctzFuel fuel (n / 2) * k) := congrArg (fun t => 2 * t) hk
          _ = 2 ^ (ctzFuel fuel (n / 2) + 1) * k := by ring
      · simp only [ctzFuel, if_pos he]
        rw [pow_succ', ← Nat.div_div_eq_div_mul]
        exact ho
    · constructor
      · simp only [ctzFuel, if_neg he, pow_zero]
        exact one_dvd n
      · simp only [ctzFuel, if_neg he, pow_zero, Nat.div_one]
        omega

/-- The normalization loop of `power_and_count_from_length_exact`, on inputs
where the u32 truncation and u8 underflow never bite (`min_chunks ≤ 2^31` and
a product large enough to stop by power 0): it terminates within the fuel,
preserving `count * 2^power`, and returns a count in `[min_chunks, 2^32)`. -/
theorem pacfle_loop_exact (minc : Nat) (hminc : minc ≤ 2 ^ 31) :
    ∀ (power fuel count : Nat), power + 1 ≤ fuel → 1 ≤ count → count < 2 ^ 32 →
      minc ≤ count * 2 ^ power → power ≤ 255 →
      ∃ p c, pacfle_loop fuel minc count power = some (p, c) ∧
        c * 2 ^ p = count * 2 ^ power ∧ minc ≤ c ∧ c < 2 ^ 32 := by
  intro power
  induction power with
  | zero =>
    intro fuel count hfuel h1c hlt hm hp255
    rw [pow_zero, Nat.mul_one] at hm
    obtain ⟨f, rfl⟩ : ∃ f, fuel = f + 1 := ⟨fuel - 1, by omega⟩
    simp only [pacfle_loop, U32_LEN]
    rw [Nat.mod_eq_of_lt hlt]
    rw [if_neg (by omega : ¬ count < minc)]
    exact ⟨0, count, rfl, rfl, hm, hlt⟩
  | succ pw ih =>
    intro fuel count hfuel h1c hlt hm hp255
    obtain ⟨f, rfl⟩ : ∃ f, fuel = f + 1 := ⟨fuel - 1, by omega⟩
    simp only [pacfle_loop, U32_LEN]
    rw [Nat.mod_eq_of_lt hlt]
    by_cases hcm : count < minc
    · rw [if_pos hcm]
      have e1 : count * 2 % 2 ^ 64 = count * 2 := Nat.mod_eq_of_lt (by omega)
      have e2 : (pw + 1 + 255) % 256 = pw := by omega
      rw [e1, e2]
      have hmul : count * 2 * 2 ^ pw = count * 2 ^ (pw + 1) := by ring
      obtain ⟨p, c, hrun, heq, hge, hcl⟩ := ih f (count * 2) (by omega) (by omega)
        (by omega) (by rw [hmul]; exact hm) (by omega)
      exact ⟨p, c, hrun, by rw [heq, hmul], hge, hcl⟩
    · rw [if_neg hcm]
      exact ⟨pw + 1, count, rfl, rfl, by omega, hlt⟩

/-- For `min_chunks = 2^31 + 1` and a power-of-two count, the source
normalization loop never exits regardless of fuel: once the count reaches
`2^32` its u32 truncation reads 0, which stays below the threshold forever
(and the u8 power keeps wrapping).  In a debug build the `power -= 1`
underflow panics instead. -/
theorem pacfle_loop_diverges (fuel : Nat) : ∀ (k power : Nat),
    pacfle_loop fuel (2 ^ 31 + 1) (2 ^ k % 2 ^ 64) power = none := by
  induction fuel with
  | zero =>
    intro k power
    rfl
  | succ fuel ih =>
    intro k power
    simp only [pacfle_loop, U32_LEN]
    have hdvd : (2 : Nat) ^ 32 ∣ 2 ^ 64 := pow_dvd_pow 2 (by norm_num)
    have h1 : 2 ^ k % 2 ^ 64 % 2 ^ 32 = 2 ^ k % 2 ^ 32 := Nat.mod_mod_of_dvd _ hdvd
    have hguard : 2 ^ k % 2 ^ 64 % 2 ^ 32 < 2 ^ 31 + 1 := by
      rw [h1]
      rcases le_or_lt k 31 with hk | hk
      · have hle : (2 : Nat) ^ k ≤ 2 ^ 31 := Nat.pow_le_pow_right (by norm_num) hk
        have hlt : (2 : Nat) ^ k < 2 ^ 32 := by omega
        rw [Nat.mod_eq_of_lt hlt]
        omega
      · have hdk : (2 : Nat) ^ 32 ∣ 2 ^ k := pow_dvd_pow 2 (by omega)
        have h0 : (2 : Nat) ^ k % 2 ^ 32 = 0 := Nat.mod_eq_zero_of_dvd hdk
        omega
    rw [if_pos hguard]
    have hstep : 2 ^ k % 2 ^ 64 * 2 % 2 ^ 64 = 2 ^ (k + 1) % 2 ^ 64 := by
      conv_rhs => rw [pow_succ, Nat.mul_mod]
      norm_num
    rw [hstep]
    exact ih (k + 1) ((power + 255) % 256)

/-- C10 (amended): exact-fit correctness with the additional bound
`min_chunks ≤ 2^31` forced by the source's u32/u8 wrapping (without it the
normalization loop does not terminate, see `c10_counterexample` and
`pacfle_loop_diverges`).  For every length `0 < len ≤ 2^32` that is a multiple
of the quantum with `len / quantum ≥ min_chunks ≥ 1`,
`power_and_count_from_length_exact` returns `Some` with
`quantum * 2^power * count = len` and `count ≥ min_chunks`. -/
theorem c10_exact_fit (topo : Topology) (len minc : Nat)
    (hq : topo.quantum = 2 ^ topo.quantum_power)
    (h0 : 0 < len) (hlen : len ≤ 2 ^ 32)
    (hdvd : topo.quantum ∣ len)
    (hm1 : 1 ≤ minc) (hmA : minc ≤ len / topo.quantum) (hmB : minc ≤ 2 ^ 31) :
    ∃ r : ArqSize, power_and_count_from_length_exact topo len minc = some r ∧
      topo.quantum * 2 ^ r.power * r.count = len ∧ minc ≤ r.count ∧
      r.count < 2 ^ 32 := by
  have hlen64 : len < 2 ^ 64 := by omega
  have hzdef : trailing_zeros_u64 len = ctzFuel 64 len := by
    unfold trailing_zeros_u64
    rw [if_neg (by omega)]
  obtain ⟨hdz, hodd⟩ := ctzFuel_spec 64 len h0 hlen64
  set z := ctzFuel 64 len with hz
  have hql : 2 ^ topo.quantum_power ∣ len := hq ▸ hdvd
  have hqz : topo.quantum_power ≤ z := by
    by_contra hcon
    push_neg at hcon
    have h1 : 2 ^ (z + 1) ∣ len := dvd_trans (pow_dvd_pow 2 (by omega)) hql
    obtain ⟨k, hk⟩ := h1
    have hk2 : len = 2 ^ z * (2 * k) := by rw [hk]; ring
    have h2 : len / 2 ^ z = 2 * k := by
      rw [hk2]
      exact Nat.mul_div_cancel_left _ (Nat.pos_pow_of_pos z (by norm_num))
    omega
  have hshift : len >>> z = len / 2 ^ z := Nat.shiftRight_eq_div_pow len z
  have hC1 : 1 ≤ len / 2 ^ z :=
    Nat.div_pos (Nat.le_of_dvd h0 hdz) (Nat.pos_pow_of_pos z (by norm_num))
  have hCz : len / 2 ^ z * 2 ^ z = len := Nat.div_mul_cancel hdz
  have hz32 : z ≤ 32 := by
    by_contra hcon
    push_neg at hcon
    have h33 : (2 : Nat) ^ 33 ≤ 2 ^ z := Nat.pow_le_pow_right (by norm_num) (by omega)
    have hzl : (2 : Nat) ^ z ≤ len := Nat.le_of_dvd h0 hdz
    omega
  have hClt : len / 2 ^ z < 2 ^ 32 := by
    rcases Nat.eq_zero_or_pos z with hz0 | hzpos
    · rw [hz0, pow_zero, Nat.div_one] at hodd ⊢
      omega
    · have h2z : (2 : Nat) ≤ 2 ^ z := by
        calc (2 : Nat) = 2 ^ 1 := (pow_one 2).symm
          _ ≤ 2 ^ z := Nat.pow_le_pow_right (by norm_num) hzpos
      have hdle : len / 2 ^ z ≤ len / 2 := Nat.div_le_div_left h2z (by norm_num)
      have hhalf : len / 2 ≤ 2 ^ 32 / 2 := Nat.div_le_div_right hlen
      omega
  have hzz : z - topo.quantum_power + topo.quantum_power = z := by omega
  have hM : minc ≤ len / 2 ^ z * 2 ^ (z - topo.quantum_power) := by
    have e : len / 2 ^ topo.quantum_power
        = len / 2 ^ z * 2 ^ (z - topo.quantum_power) := by
      calc len / 2 ^ topo.quantum_power
          = len / 2 ^ z * 2 ^ z / 2 ^ topo.quantum_power := by rw [hCz]
        _ = len / 2 ^ z * (2 ^ (z - topo.quantum_power) * 2 ^ topo.quantum_power) /
              2 ^ topo.quantum_power := by rw [← pow_add, hzz]
        _ = len / 2 ^ z * 2 ^ (z - topo.quantum_power) * 2 ^ topo.quantum_power /
              2 ^ topo.quantum_power := by rw [Nat.mul_assoc]
        _ = len / 2 ^ z * 2 ^ (z - topo.quantum_power) :=
              Nat.mul_div_cancel _ (Nat.pos_pow_of_pos _ (by norm_num))
    rw [hq, e] at hmA
    exact hmA
  obtain ⟨p, c, hrun, heq, hge, hcl⟩ := pacfle_loop_exact minc hmB
    (z - topo.quantum_power) 64 (len / 2 ^ z) (by omega) hC1 hClt hM (by omega)
  refine ⟨⟨p, c⟩, ?_, ?_, hge, hcl⟩
  · simp only [power_and_count_from_length_exact]
    rw [hzdef, if_neg (by omega : ¬ z < topo.quantum_power), hshift, hrun]
    rfl
  · rw [hq]
    calc 2 ^ topo.quantum_power * 2 ^ p * c
        = c * 2 ^ p * 2 ^ topo.quantum_power := by ring
      _ = len / 2 ^ z * 2 ^ (z - topo.quantum_power) * 2 ^ topo.quantum_power := by
          rw [heq]
      _ = len / 2 ^ z * 2 ^ z := by rw [Nat.mul_assoc, ← pow_add, hzz]
      _ = len := hCz

/-- C10 counterexample: at the unit topology (`quantum = 1`), `len = 2^32` and
`min_chunks = 2^31 + 1` — inputs satisfying every hypothesis of the claim —
the source loop never returns (`pacfle_loop_diverges`): once the u64 count
reaches `2^32` its u32 truncation reads 0 forever while the u8 power wraps, so
no `Some` with an exact product is produced (the model's fuel exhaustion
yields `none`). -/
theorem c10_counterexample :
    power_and_count_from_length_exact ⟨1, 0⟩ (2 ^ 32) (2 ^ 31 + 1) = none ∧
    (0 : Nat) < 2 ^ 32 ∧ (2 ^ 32 : Nat) ≤ 2 ^ 32 ∧ (1 : Nat) ∣ 2 ^ 32 ∧
    (1 : Nat) ≤ 2 ^ 31 + 1 ∧ (2 ^ 31 + 1 : Nat) ≤ 2 ^ 32 / 1 := by
  refine ⟨?_, by norm_num, by norm_num, ⟨2 ^ 32, by norm_num⟩, by norm_num, by norm_num⟩
  rfl

/-- C10 witness: `len = 48 = 16 · 3` at the unit topology with
`min_chunks = 5` fits exactly as `2^3 · 6`. -/
theorem c10_witness :
    ((⟨1, 0⟩ : Topology).quantum = 2 ^ (⟨1, 0⟩ : Topology).quantum_power ∧
     (0 : Nat) < 48 ∧ (48 : Nat) ≤ 2 ^ 32 ∧ (⟨1, 0⟩ : Topology).quantum ∣ 48 ∧
     (1 : Nat) ≤ 5 ∧ (5 : Nat) ≤ 48 / (⟨1, 0⟩ : Topology).quantum ∧
     (5 : Nat) ≤ 2 ^ 31) ∧
    (∃ r : ArqSize, power_and_count_from_length_exact ⟨1, 0⟩ 48 5 = some r ∧
      (⟨1, 0⟩ : Topology).quantum * 2 ^ r.power * r.count = 48 ∧ 5 ≤ r.count ∧
      r.count < 2 ^ 32) :=
  ⟨⟨by decide, by decide, by norm_num, by decide, by decide, by decide, by norm_num⟩,
    c10_exact_fit ⟨1, 0⟩ 48 5 (by decide) (by decide) (by norm_num) (by decide)
      (by decide) (by decide) (by norm_num)⟩
